import Mathlib

/-!
Verification of the node-registry slice of headscale (`hscontrol/db/node.go`).

The Go source is shallowly embedded: the node table, route table and
registration cache become Lean lists, gorm queries become list filters and
finds, and each mutating operation is a pure function threading that state.
Machine time is an explicit `Int` parameter standing for the wall clock.
Helpers of this repository that are not part of the provided slice
(`util`, `types` methods, user lookups) are modelled from the spec and are
marked as such in their doc comments.
-/

/-- A CIDR, `netip.Prefix` in the source: an address together with the mask
length.  Exact equality is all the source uses. -/
structure Cidr where
  addr : Nat
  bits : Nat
deriving DecidableEq

/-- Modelled from the spec: exit routes are "the full-range default routes"
(`types.Route.IsExitRoute`, not part of the slice); the zero address with a
zero mask is the full-range route. -/
def Cidr.isExit (p : Cidr) : Bool :=
  p.addr == 0 && p.bits == 0

/-- A row of the route table (`types.Route`). -/
structure Route where
  routeId : Nat
  nodeId : Nat
  cidr : Cidr
  advertised : Bool
  enabled : Bool
  isPrimary : Bool
deriving DecidableEq

/-- A row of the node table (`types.Node`), restricted to the fields the
slice reads or writes. -/
structure Node where
  id : Nat
  machineKey : String
  nodeKey : String
  userId : Nat
  hostname : String
  givenName : String
  ipAddresses : List String
  forcedTags : List String
  expiry : Option Int
  lastSeen : Option Int
  ephemeral : Bool
  registerMethod : String
deriving DecidableEq

/-- A user row, as far as the slice needs it. -/
structure User where
  id : Nat
  name : String
deriving DecidableEq

/-- The change-notification value (`types.StateUpdate`), one constructor per
`Type` tag the slice produces.  `peerChanged` carries the affected node id
together with its refreshed route rows, `peerChangedPatch` carries
(node id, key-expiry) pairs, `peerRemoved` carries removed node ids. -/
inductive StateUpdate
  | peerChanged (nodeId : Nat) (routes : List Route)
  | peerRemoved (removed : List Nat)
  | peerChangedPatch (patches : List (Nat × Option Int))
  | empty
deriving DecidableEq

/-- Errors of the registration paths (`ErrNodeNotFoundRegistrationCache`,
`ErrCouldNotConvertNodeInterface`, `ErrDifferentRegisteredUser`, the user
lookup failure and the IP-allocation failure). -/
inductive RegisterError
  | userNotFound
  | differentRegisteredUser
  | couldNotConvertNodeInterface
  | nodeNotFoundRegistrationCache
  | addressPoolExhausted
deriving DecidableEq

/-- Errors of the route-enable path (`ErrNodeRouteIsNotAvailable` and the
"failed to find route" error of the mutation pass). -/
inductive RouteError
  | routeNotAvailable
  | routeNotFound
deriving DecidableEq

/-- Error of name validation (`util.ErrInvalidUserName` and friends). -/
inductive NameError
  | invalidName
deriving DecidableEq

/-- The DNS label length limit, `util.LabelHostnameLength`. -/
def labelHostnameLength : Nat := 63

/-- `NodeGivenNameHashLength` from the source. -/
def NodeGivenNameHashLength : Nat := 8

/-- `NodeGivenNameTrimSize` from the source. -/
def NodeGivenNameTrimSize : Nat := 2

/-- Modelled from the spec: `util.StringOrPrefixListContains` used on tags;
on the paths the slice exercises it is membership in the list. -/
def stringListContains (l : List String) (t : String) : Bool :=
  l.contains t

/-- `SetTags` (node.go:209): an empty tag list is a no-op returning nil;
otherwise the deduplicated list is written to the node's forced_tags. -/
def SetTags (db : List Node) (nodeID : Nat) (tags : List String) :
    Except NameError (List Node) :=
  if tags.length = 0 then
    .ok db
  else
    let newTags := tags.foldl
      (fun acc tag => if stringListContains acc tag then acc else acc ++ [tag]) []
    .ok (db.map (fun n => if n.id == nodeID then { n with forcedTags := newTags } else n))

/-- Modelled from the spec: `util.CheckForFQDNRules` — "validates newName
against DNS-label rules" (length at most 63, safe character set). -/
def checkForFQDNRules (name : String) : Bool :=
  name.length ≤ labelHostnameLength &&
    name.data.all (fun c => c.isLower || c.isDigit || c == '-' || c == '.')

/-- `RenameNode` (node.go:234): validate the new name against DNS rules,
then write it as the node's given_name.  No uniqueness check is made. -/
def RenameNode (db : List Node) (nodeID : Nat) (newName : String) :
    Except NameError (List Node) :=
  if checkForFQDNRules newName then
    .ok (db.map (fun n => if n.id == nodeID then { n with givenName := newName } else n))
  else
    .error .invalidName

/-- The spec's uniqueness invariant: all nodes carry pairwise distinct
given names. -/
def uniqueGivenNames (db : List Node) : Prop :=
  (db.map Node.givenName).Nodup

instance (db : List Node) : Decidable (uniqueGivenNames db) := by
  unfold uniqueGivenNames; infer_instance

/-- C9: calling `SetTags` with an empty tag list returns success without
touching the node table at all, so an empty list cannot clear a node's
existing forced tags. -/
theorem setTags_empty_noop (db : List Node) (nodeID : Nat) :
    SetTags db nodeID [] = .ok db := by
  simp [SetTags]

/-- Two concrete nodes used by counterexamples and witnesses. -/
def nodeA : Node :=
  { id := 1, machineKey := "mkey-a", nodeKey := "nkey-a", userId := 1,
    hostname := "node-a", givenName := "node-a", ipAddresses := ["100.64.0.1"],
    forcedTags := [], expiry := none, lastSeen := none, ephemeral := false,
    registerMethod := "cli" }

def nodeB : Node :=
  { id := 2, machineKey := "mkey-b", nodeKey := "nkey-b", userId := 1,
    hostname := "node-b", givenName := "node-b", ipAddresses := ["100.64.0.2"],
    forcedTags := [], expiry := none, lastSeen := none, ephemeral := false,
    registerMethod := "cli" }

/-- C4 counterexample: from a state where given names are unique,
`RenameNode` happily renames node 2 to node 1's given name — the rename
succeeds and the resulting state violates the uniqueness invariant, so
given-name uniqueness is not preserved by every operation. -/
theorem givenName_uniqueness_counterexample :
    uniqueGivenNames [nodeA, nodeB] ∧
    RenameNode [nodeA, nodeB] 2 "node-a" =
      .ok [nodeA, { nodeB with givenName := "node-a" }] ∧
    ¬ uniqueGivenNames [nodeA, { nodeB with givenName := "node-a" }] := by
  refine ⟨by decide, by rfl, by decide⟩

/-- C4 (amended): `RenameNode` enforces only DNS-label validity, never
uniqueness: whenever the new name passes the DNS-label check the rename
succeeds and writes the name, irrespective of the given names of every
other node, so a rename can duplicate an existing given name. -/
theorem renameNode_no_uniqueness_check (db : List Node) (nodeID : Nat)
    (newName : String) (h : checkForFQDNRules newName = true) :
    RenameNode db nodeID newName =
      .ok (db.map (fun n => if n.id == nodeID then { n with givenName := newName } else n)) := by
  simp [RenameNode, h]

/-- Witness for C4's amended theorem at a concrete input. -/
theorem renameNode_no_uniqueness_check_witness :
    RenameNode [nodeA, nodeB] 2 "node-a" =
      .ok ([nodeA, nodeB].map
        (fun n => if n.id == 2 then { n with givenName := "node-a" } else n)) :=
  renameNode_no_uniqueness_check [nodeA, nodeB] 2 "node-a" (by decide)

/-- `tx.Save(&node)` on the node table: gorm upserts by the primary key, so
an existing row with the same id is replaced, otherwise the row is
appended. -/
def saveNode (db : List Node) (n : Node) : List Node :=
  if db.any (fun m => m.id == n.id) then
    db.map (fun m => if m.id == n.id then n else m)
  else
    db ++ [n]

/-- `RegisterNode` (node.go:369).  `getAvailableIPs` is an external
collaborator of the slice (IP Allocation, spec 4.2) and is therefore a
function parameter; it is consulted only on the empty-address path. -/
def RegisterNode
    (getAvailableIPs : List Node → List Cidr → Except RegisterError (List String))
    (db : List Node) (node : Node) (ipPrefixes : List Cidr) :
    Except RegisterError (List Node × Node) :=
  if node.ipAddresses.length > 0 then
    .ok (saveNode db node, node)
  else
    match getAvailableIPs db ipPrefixes with
    | .error e => .error e
    | .ok ips =>
      let node' := { node with ipAddresses := ips }
      .ok (saveNode db node', node')

/-- Repeating `RegisterNode` `k` times, each round feeding the returned
node back in (re-registration of the same device). -/
def registerIter
    (getAvailableIPs : List Node → List Cidr → Except RegisterError (List String))
    (ipPrefixes : List Cidr) : Nat → List Node × Node →
    Except RegisterError (List Node × Node)
  | 0, s => .ok s
  | k + 1, (db, n) =>
    match RegisterNode getAvailableIPs db n ipPrefixes with
    | .ok s' => registerIter getAvailableIPs ipPrefixes k s'
    | .error e => .error e

/-- C2: a node that already carries addresses is persisted as-is and
returned unchanged; the result does not depend on the allocator at all
(the fresh-IP path is only taken for an empty address set), and iterating
the registration any number of times keeps returning the very same node,
so its address assignment never changes. -/
theorem registerNode_preserves_assigned_addresses
    (alloc : List Node → List Cidr → Except RegisterError (List String))
    (db : List Node) (node : Node) (ipPrefixes : List Cidr)
    (h : node.ipAddresses ≠ []) :
    RegisterNode alloc db node ipPrefixes = .ok (saveNode db node, node) ∧
    (∀ alloc2, RegisterNode alloc2 db node ipPrefixes =
      RegisterNode alloc db node ipPrefixes) ∧
    (∀ k, ∃ db', registerIter alloc ipPrefixes k (db, node) = .ok (db', node)) := by
  have hlen : node.ipAddresses.length > 0 := List.length_pos.mpr h
  have hstep : ∀ (d : List Node),
      RegisterNode alloc d node ipPrefixes = .ok (saveNode d node, node) := by
    intro d
    simp [RegisterNode, hlen]
  refine ⟨hstep db, ?_, ?_⟩
  · intro alloc2
    simp [RegisterNode, hlen]
  · intro k
    induction k generalizing db with
    | zero => exact ⟨db, rfl⟩
    | succ k ih =>
      obtain ⟨db', hdb'⟩ := ih (saveNode db node)
      exact ⟨db', by rw [registerIter, hstep db]; exact hdb'⟩

/-- An allocator that always fails, used to witness that the allocation
path is not consulted for an already-addressed node. -/
def allocAlwaysFails : List Node → List Cidr → Except RegisterError (List String) :=
  fun _ _ => .error .addressPoolExhausted

/-- Witness for C2 at a concrete input: `nodeA` has an address, so even a
failing allocator registers it unchanged, three times over. -/
theorem registerNode_preserves_assigned_addresses_witness :
    RegisterNode allocAlwaysFails [] nodeA [] = .ok (saveNode [] nodeA, nodeA) ∧
    ∃ db', registerIter allocAlwaysFails [] 3 ([], nodeA) = .ok (db', nodeA) := by
  have h := registerNode_preserves_assigned_addresses allocAlwaysFails [] nodeA []
    (by decide)
  exact ⟨h.1, h.2.2 3⟩

/-- A registration cache entry: the Go cache stores an untyped value that
should be a `types.Node`; a malformed entry is any other payload. -/
inductive CacheEntry
  | nodeEntry (n : Node)
  | malformedEntry
deriving DecidableEq

/-- The registration cache, keyed by the machine key string. -/
def lookupCache (cache : List (String × CacheEntry)) (mkey : String) :
    Option CacheEntry :=
  match cache.find? (fun kv => kv.1 == mkey) with
  | some kv => some kv.2
  | none => none

/-- `cache.Delete(mkey)`. -/
def deleteCache (cache : List (String × CacheEntry)) (mkey : String) :
    List (String × CacheEntry) :=
  cache.filter (fun kv => kv.1 != mkey)

/-- Modelled from the spec: `GetUser` resolves a user by name, failing when
the user is unknown (spec 4.1). -/
def GetUser (users : List User) (userName : String) : Option User :=
  users.find? (fun u => u.name == userName)

/-- The state touched by the auth-callback registration: the pending cache,
the user directory and the node table. -/
structure AuthState where
  cache : List (String × CacheEntry)
  users : List User
  nodes : List Node
deriving DecidableEq

/-- `RegisterNodeFromAuthCallback` (node.go:303).  The pair returned is
(outcome, resulting state): on every failure the state — in particular the
cache — is the input state; only a successful registration evicts the
cache entry. -/
def RegisterNodeFromAuthCallback
    (getAvailableIPs : List Node → List Cidr → Except RegisterError (List String))
    (st : AuthState) (mkey userName : String) (nodeExpiry : Option Int)
    (registrationMethod : String) (ipPrefixes : List Cidr) :
    Except RegisterError Node × AuthState :=
  match lookupCache st.cache mkey with
  | some (.nodeEntry registrationNode) =>
    match GetUser st.users userName with
    | none => (.error .userNotFound, st)
    | some user =>
      if registrationNode.id ≠ 0 ∧ registrationNode.userId ≠ user.id then
        (.error .differentRegisteredUser, st)
      else
        match RegisterNode getAvailableIPs st.nodes
          { registrationNode with
            userId := user.id,
            registerMethod := registrationMethod,
            expiry := match nodeExpiry with
              | some e => some e
              | none => registrationNode.expiry } ipPrefixes with
        | .ok (nodes', node) =>
          (.ok node, { st with nodes := nodes', cache := deleteCache st.cache mkey })
        | .error e => (.error e, st)
  | some .malformedEntry => (.error .couldNotConvertNodeInterface, st)
  | none => (.error .nodeNotFoundRegistrationCache, st)

/-- C7: the pending-registration cache entry is evicted exactly when the
registration succeeds.  On any failure — no cache entry, malformed entry,
unknown user, different registered user, failing registration write — the
whole state, and in particular the cache, is left intact and the error is
returned; on success the entry for the machine key is deleted.  The
different-user guard fires precisely for a cached node with a non-zero
identity owned by another user. -/
theorem registerNodeFromAuthCallback_cache_eviction
    (alloc : List Node → List Cidr → Except RegisterError (List String))
    (st : AuthState) (mkey userName : String) (nodeExpiry : Option Int)
    (registrationMethod : String) (ipPrefixes : List Cidr) :
    (∀ e, (RegisterNodeFromAuthCallback alloc st mkey userName nodeExpiry
        registrationMethod ipPrefixes).1 = .error e →
      (RegisterNodeFromAuthCallback alloc st mkey userName nodeExpiry
        registrationMethod ipPrefixes).2 = st) ∧
    (∀ n, (RegisterNodeFromAuthCallback alloc st mkey userName nodeExpiry
        registrationMethod ipPrefixes).1 = .ok n →
      (RegisterNodeFromAuthCallback alloc st mkey userName nodeExpiry
        registrationMethod ipPrefixes).2.cache = deleteCache st.cache mkey) ∧
    (∀ rn user, lookupCache st.cache mkey = some (.nodeEntry rn) →
      GetUser st.users userName = some user →
      rn.id ≠ 0 → rn.userId ≠ user.id →
      RegisterNodeFromAuthCallback alloc st mkey userName nodeExpiry
        registrationMethod ipPrefixes = (.error .differentRegisteredUser, st)) := by
  have hcases : (∃ e, RegisterNodeFromAuthCallback alloc st mkey userName
        nodeExpiry registrationMethod ipPrefixes = (.error e, st)) ∨
      (∃ n nodes', RegisterNodeFromAuthCallback alloc st mkey userName
        nodeExpiry registrationMethod ipPrefixes =
        (.ok n, { st with nodes := nodes', cache := deleteCache st.cache mkey })) := by
    unfold RegisterNodeFromAuthCallback
    repeat' split
    all_goals first
      | exact Or.inl ⟨_, rfl⟩
      | exact Or.inr ⟨_, _, rfl⟩
  refine ⟨?_, ?_, ?_⟩
  · intro e he
    rcases hcases with ⟨e₀, heq⟩ | ⟨n₀, nodes₀, heq⟩
    · rw [heq]
    · rw [heq] at he
      exact absurd he (by simp)
  · intro n hn
    rcases hcases with ⟨e₀, heq⟩ | ⟨n₀, nodes₀, heq⟩
    · rw [heq] at hn
      exact absurd hn (by simp)
    · rw [heq]
  · intro rn user hc hu h0 hne
    unfold RegisterNodeFromAuthCallback
    simp [hc, hu, h0, hne]

/-- A one-entry auth state whose cached node was previously registered to
user 1. -/
def authState0 : AuthState :=
  { cache := [("mkey-a", .nodeEntry nodeA)],
    users := [{ id := 1, name := "alice" }, { id := 2, name := "bob" }],
    nodes := [] }

/-- Witness for C7 at concrete inputs: authorizing the cached node (id 1,
owner 1) as user "bob" (id 2) fails with the different-user error and
leaves the state untouched. -/
theorem registerNodeFromAuthCallback_cache_eviction_witness :
    RegisterNodeFromAuthCallback allocAlwaysFails authState0 "mkey-a" "bob"
      none "oidc" [] = (.error .differentRegisteredUser, authState0) := by
  have h := registerNodeFromAuthCallback_cache_eviction allocAlwaysFails authState0
    "mkey-a" "bob" none "oidc" []
  exact h.2.2 nodeA { id := 2, name := "bob" } (by decide) (by decide)
    (by decide) (by decide)

/-- `GetAdvertisedRoutes` (node.go:463): the prefixes of the node's route
rows whose advertised flag is set. -/
def GetAdvertisedRoutes (table : List Route) (node : Node) : List Cidr :=
  (table.filter (fun r => r.nodeId == node.id && r.advertised)).map Route.cidr

/-- `GetEnabledRoutes` (node.go:494): the prefixes of the node's route rows
that are both advertised and enabled. -/
def GetEnabledRoutes (table : List Route) (node : Node) : List Cidr :=
  (table.filter (fun r => r.nodeId == node.id && r.advertised && r.enabled)).map
    Route.cidr

/-- Modelled from the spec: `isUniquePrefix` (called at node.go:591, body
not in the slice) — the enabling node "is the *only* node currently
offering that prefix (enabled-or-advertised)", that is, no route row of a
different node with the same prefix is advertised or enabled. -/
def isUniqueSubnet (table : List Route) (route : Route) : Bool :=
  (table.filter (fun r =>
    r.cidr == route.cidr && r.nodeId != route.nodeId && (r.advertised || r.enabled))).isEmpty

/-- The route-row lookup of the mutation pass (node.go:582): the first row
of the table matching the node id and the prefix. -/
def findRouteRow (table : List Route) (nid : Nat) (p : Cidr) : Option Route :=
  table.find? (fun r => r.nodeId == nid && r.cidr == p)

/-- `tx.Save(&route)` (node.go:594): gorm updates the row with the same
primary key. -/
def saveRouteRow (table : List Route) (r2 : Route) : List Route :=
  table.map (fun q => if q.routeId == r2.routeId then r2 else q)

/-- Modelled from the spec: `GetNodeRoutes` (called at node.go:605, body
not in the slice) — "the node's in-memory route list is refreshed from
storage": all route rows of the node. -/
def GetNodeRoutes (table : List Route) (node : Node) : List Route :=
  table.filter (fun r => r.nodeId == node.id)

/-- The body of the mutation pass at one route row (node.go:585-593): set
enabled, and — unless the row is an exit route — recompute the primary flag
from the unique-offerer check against the current table. -/
def enabledRow (table : List Route) (route : Route) : Route :=
  if (Route.cidr { route with enabled := true }).isExit then
    { route with enabled := true }
  else
    { route with
      enabled := true,
      isPrimary := isUniqueSubnet table { route with enabled := true } }

/-- The second pass of `enableRoutes` (node.go:580-601): for each validated
prefix find the route row, write the enabled row back, and go on; a missing
row aborts with an error, leaving the rows already written. -/
def enableRoutesLoop (node : Node) : List Cidr → List Route →
    Except RouteError Unit × List Route
  | [], table => (.ok (), table)
  | p :: ps, table =>
    match findRouteRow table node.id p with
    | some route => enableRoutesLoop node ps (saveRouteRow table (enabledRow table route))
    | none => (.error .routeNotFound, table)

/-- `enableRoutes` (node.go:551): the requested prefixes (already parsed;
the claims speak of prefixes) are first all validated against the node's
advertised set — any miss rejects the whole batch with the
route-not-available error before any row is written — and only then the
mutation pass runs; on success the update carries the node's refreshed
route list.  The returned pair is (outcome, resulting route table). -/
def enableRoutes (table : List Route) (node : Node) (newRoutes : List Cidr) :
    Except RouteError StateUpdate × List Route :=
  if newRoutes.all (fun newRoute => (GetAdvertisedRoutes table node).contains newRoute) then
    match enableRoutesLoop node newRoutes table with
    | (.ok _, table') =>
      (.ok (.peerChanged node.id (GetNodeRoutes table' node)), table')
    | (.error e, table') => (.error e, table')
  else
    (.error .routeNotAvailable, table)

/-- C1: a batch containing any prefix outside the node's advertised set is
rejected whole with the route-not-available error, and the route table is
returned untouched — no row's enabled or primary flag changes, because the
validation pass completes before the mutation pass starts. -/
theorem enableRoutes_rejects_unavailable_route (table : List Route) (node : Node)
    (newRoutes : List Cidr) (p : Cidr) (hp : p ∈ newRoutes)
    (hnav : p ∉ GetAdvertisedRoutes table node) :
    (enableRoutes table node newRoutes).1 = .error .routeNotAvailable ∧
    (enableRoutes table node newRoutes).2 = table := by
  have hnotall : ¬ ∀ x ∈ newRoutes, x ∈ GetAdvertisedRoutes table node :=
    fun h => hnav (h p hp)
  constructor <;> simp [enableRoutes, hnotall]

/-- A route row of node 1 advertising 10.0.0.0/24 (addresses are numbered
abstractly). -/
def routeRow1 : Route :=
  { routeId := 1, nodeId := 1, cidr := { addr := 10, bits := 24 },
    advertised := true, enabled := false, isPrimary := false }

/-- Witness for C1 at a concrete input: node 1 advertises only 10.0.0.0/24,
so requesting the unadvertised prefix 99/24 is rejected whole and the
table is untouched. -/
theorem enableRoutes_rejects_unavailable_route_witness :
    (enableRoutes [routeRow1] nodeA [{ addr := 99, bits := 24 }]).1 =
      .error .routeNotAvailable ∧
    (enableRoutes [routeRow1] nodeA [{ addr := 99, bits := 24 }]).2 = [routeRow1] :=
  enableRoutes_rejects_unavailable_route [routeRow1] nodeA
    [{ addr := 99, bits := 24 }] { addr := 99, bits := 24 }
    (by decide) (by decide)

/-- The (routeId, nodeId, cidr) key triples of a route table, in order:
the part of the table the mutation pass never rewrites. -/
def routeKeys (table : List Route) : List (Nat × Nat × Cidr) :=
  table.map (fun r => (r.routeId, r.nodeId, r.cidr))

/-- The rows of nodes other than `nid`, in order. -/
def otherRows (nid : Nat) (table : List Route) : List Route :=
  table.filter (fun q => q.nodeId != nid)

lemma routeIds_eq_of_routeKeys_eq {t t' : List Route}
    (h : routeKeys t' = routeKeys t) :
    t'.map Route.routeId = t.map Route.routeId := by
  have h1 : (routeKeys t').map Prod.fst = (routeKeys t).map Prod.fst := by rw [h]
  simpa [routeKeys, List.map_map, Function.comp] using h1

lemma route_eq_of_id_eq {table : List Route}
    (hids : (table.map Route.routeId).Nodup) {q r : Route}
    (hq : q ∈ table) (hr : r ∈ table) (h : q.routeId = r.routeId) : q = r :=
  List.inj_on_of_nodup_map hids hq hr h

lemma enabledRow_routeId (table : List Route) (route : Route) :
    (enabledRow table route).routeId = route.routeId := by
  unfold enabledRow; split <;> rfl

lemma enabledRow_nodeId (table : List Route) (route : Route) :
    (enabledRow table route).nodeId = route.nodeId := by
  unfold enabledRow; split <;> rfl

lemma enabledRow_cidr (table : List Route) (route : Route) :
    (enabledRow table route).cidr = route.cidr := by
  unfold enabledRow; split <;> rfl

lemma enabledRow_of_exit {table : List Route} {route : Route}
    (h : route.cidr.isExit = true) :
    enabledRow table route = { route with enabled := true } := by
  unfold enabledRow
  rw [if_pos]
  exact h

lemma enabledRow_of_nonexit {table : List Route} {route : Route}
    (h : route.cidr.isExit = false) :
    enabledRow table route =
      { route with
        enabled := true,
        isPrimary := isUniqueSubnet table { route with enabled := true } } := by
  unfold enabledRow
  rw [if_neg]
  intro hc
  rw [show (Route.cidr { route with enabled := true }) = route.cidr from rfl, h] at hc
  exact absurd hc (by simp)

lemma isUniqueSubnet_enabled (table : List Route) (route : Route) :
    isUniqueSubnet table { route with enabled := true } = isUniqueSubnet table route :=
  rfl

lemma mem_saveRouteRow_self {table : List Route} {route r2 : Route}
    (hmem : route ∈ table) (hid : r2.routeId = route.routeId) :
    r2 ∈ saveRouteRow table r2 := by
  unfold saveRouteRow
  exact List.mem_map.mpr ⟨route, hmem, by simp [hid]⟩

lemma mem_saveRouteRow_of_ne {table : List Route} {r r2 : Route}
    (hmem : r ∈ table) (hne : r.routeId ≠ r2.routeId) :
    r ∈ saveRouteRow table r2 := by
  unfold saveRouteRow
  exact List.mem_map.mpr ⟨r, hmem, by simp [hne]⟩

lemma filter_map_of_fix {α : Type} (p : α → Bool) (h : α → α) :
    ∀ l : List α, (∀ q ∈ l, p q = true → h q = q) →
      (∀ q ∈ l, p q = false → p (h q) = false) →
      (l.map h).filter p = l.filter p := by
  intro l
  induction l with
  | nil => intro _ _; rfl
  | cons a t ih =>
    intro h1 h2
    have iht := ih (fun q hq => h1 q (by simp [hq])) (fun q hq => h2 q (by simp [hq]))
    by_cases hpa : p a = true
    · have ha : h a = a := h1 a (by simp) hpa
      simp only [List.map_cons, List.filter_cons, ha, hpa, if_true, iht]
    · have hpa' : p a = false := by simpa using hpa
      have ha : p (h a) = false := h2 a (by simp) hpa'
      simp only [List.map_cons, List.filter_cons, hpa', ha, Bool.false_eq_true,
        if_false, iht]

lemma saveRouteRow_routeKeys {table : List Route} {route r2 : Route}
    (hmem : route ∈ table) (hids : (table.map Route.routeId).Nodup)
    (hid : r2.routeId = route.routeId) (hnode : r2.nodeId = route.nodeId)
    (hcidr : r2.cidr = route.cidr) :
    routeKeys (saveRouteRow table r2) = routeKeys table := by
  unfold routeKeys saveRouteRow
  rw [List.map_map]
  apply List.map_congr_left
  intro q hq
  simp only [Function.comp]
  by_cases h : q.routeId = r2.routeId
  · have hq2 : q = route := route_eq_of_id_eq hids hq hmem (h.trans hid)
    simp [h, hid, hnode, hcidr, hq2]
  · simp [h]

lemma saveRouteRow_other {nid : Nat} {table : List Route} {route r2 : Route}
    (hmem : route ∈ table) (hids : (table.map Route.routeId).Nodup)
    (hid : r2.routeId = route.routeId) (hroute : route.nodeId = nid)
    (hr2 : r2.nodeId = nid) :
    otherRows nid (saveRouteRow table r2) = otherRows nid table := by
  unfold otherRows saveRouteRow
  apply filter_map_of_fix
  · intro q hq hpq
    by_cases h : q.routeId = r2.routeId
    · have hq2 : q = route := route_eq_of_id_eq hids hq hmem (h.trans hid)
      have : q.nodeId ≠ nid := by simpa using hpq
      exact absurd (hq2 ▸ hroute) this
    · simp [h]
  · intro q hq hpq
    by_cases h : q.routeId = r2.routeId
    · simp [h, hr2]
    · simp [h, hpq]

lemma isUniqueSubnet_congr_other {nid : Nat} {t t' : List Route}
    (hB : otherRows nid t' = otherRows nid t) {r : Route} (hr : r.nodeId = nid) :
    isUniqueSubnet t' r = isUniqueSubnet t r := by
  unfold isUniqueSubnet
  have key : ∀ s : List Route,
      s.filter (fun q =>
        q.cidr == r.cidr && q.nodeId != r.nodeId && (q.advertised || q.enabled)) =
      (otherRows nid s).filter (fun q =>
        q.cidr == r.cidr && q.nodeId != r.nodeId && (q.advertised || q.enabled)) := by
    intro s
    unfold otherRows
    rw [List.filter_filter]
    apply List.filter_congr
    intro x hx
    by_cases hxp : (x.cidr == r.cidr && x.nodeId != r.nodeId &&
        (x.advertised || x.enabled)) = true
    · have hne : x.nodeId ≠ nid := by
        have := hxp
        simp only [Bool.and_eq_true, bne_iff_ne] at this
        exact hr ▸ this.1.2
      simp [hxp, hne]
    · have hxp' : (x.cidr == r.cidr && x.nodeId != r.nodeId &&
          (x.advertised || x.enabled)) = false := by simpa using hxp
      simp [hxp']
  rw [key t, key t', hB]

lemma isUniqueSubnet_of_sole {table₀ table : List Route} {node : Node} {p : Cidr}
    (hB : otherRows node.id table = otherRows node.id table₀)
    (Hsole : ∀ q ∈ table₀, q.nodeId ≠ node.id → q.cidr = p →
      q.advertised = false ∧ q.enabled = false)
    {r : Route} (hrn : r.nodeId = node.id) (hrc : r.cidr = p) :
    isUniqueSubnet table r = true := by
  rw [isUniqueSubnet_congr_other hB hrn]
  unfold isUniqueSubnet
  rw [List.isEmpty_iff, List.filter_eq_nil_iff]
  intro q hq
  by_cases hqc : q.cidr = r.cidr
  · by_cases hqn : q.nodeId = r.nodeId
    · simp [hqn]
    · have := Hsole q hq (by rw [← hrn]; exact hqn) (hqc.trans hrc)
      simp [this.1, this.2]
  · simp [hqc]

lemma findRouteRow_spec {table : List Route} {nid : Nat} {p : Cidr} {route : Route}
    (h : findRouteRow table nid p = some route) :
    route ∈ table ∧ route.nodeId = nid ∧ route.cidr = p := by
  unfold findRouteRow at h
  refine ⟨List.mem_of_find?_eq_some h, ?_⟩
  have hp := List.find?_some h
  simp only [Bool.and_eq_true, beq_iff_eq] at hp
  exact hp

lemma enableRoutesLoop_pres (node : Node) (table₀ : List Route)
    (H0 : (table₀.map Route.routeId).Nodup) :
    ∀ (ps : List Cidr) (table : List Route),
      routeKeys table = routeKeys table₀ →
      otherRows node.id table = otherRows node.id table₀ →
      routeKeys (enableRoutesLoop node ps table).2 = routeKeys table₀ ∧
      otherRows node.id (enableRoutesLoop node ps table).2 =
        otherRows node.id table₀ := by
  intro ps
  induction ps with
  | nil =>
    intro table h1 h2
    exact ⟨h1, h2⟩
  | cons p ps ih =>
    intro table h1 h2
    rcases hf : findRouteRow table node.id p with _ | route
    · simp only [enableRoutesLoop, hf]
      exact ⟨h1, h2⟩
    · have hids : (table.map Route.routeId).Nodup := by
        rw [routeIds_eq_of_routeKeys_eq h1]; exact H0
      obtain ⟨hmem, hnode, hcidr⟩ := findRouteRow_spec hf
      have hkeys' := saveRouteRow_routeKeys hmem hids (enabledRow_routeId table route)
        (enabledRow_nodeId table route) (enabledRow_cidr table route)
      have hother' := saveRouteRow_other hmem hids (enabledRow_routeId table route)
        hnode ((enabledRow_nodeId table route).trans hnode)
      simp only [enableRoutesLoop, hf]
      exact ih _ (hkeys'.trans h1) (hother'.trans h2)

lemma enableRoutesLoop_establish (node : Node) (table₀ : List Route) (p : Cidr)
    (H0 : (table₀.map Route.routeId).Nodup)
    (Hexit : p.isExit = false)
    (Hsole : ∀ q ∈ table₀, q.nodeId ≠ node.id → q.cidr = p →
      q.advertised = false ∧ q.enabled = false) :
    ∀ (ps : List Cidr) (table : List Route),
      routeKeys table = routeKeys table₀ →
      otherRows node.id table = otherRows node.id table₀ →
      ((∃ r ∈ table, r.nodeId = node.id ∧ r.cidr = p ∧ r.enabled = true ∧
          r.isPrimary = true) →
        ∃ r ∈ (enableRoutesLoop node ps table).2,
          r.nodeId = node.id ∧ r.cidr = p ∧ r.enabled = true ∧ r.isPrimary = true) ∧
      (p ∈ ps → (enableRoutesLoop node ps table).1 = .ok () →
        ∃ r ∈ (enableRoutesLoop node ps table).2,
          r.nodeId = node.id ∧ r.cidr = p ∧ r.enabled = true ∧ r.isPrimary = true) := by
  intro ps
  induction ps with
  | nil =>
    intro table h1 h2
    refine ⟨fun hQ => hQ, fun hp _ => absurd hp (List.not_mem_nil p)⟩
  | cons q' ps ih =>
    intro table h1 h2
    rcases hf : findRouteRow table node.id q' with _ | route
    · constructor
      · intro hQ
        simpa only [enableRoutesLoop, hf] using hQ
      · intro _ hok
        simp only [enableRoutesLoop, hf] at hok
        exact absurd hok (by simp)
    · have hids : (table.map Route.routeId).Nodup := by
        rw [routeIds_eq_of_routeKeys_eq h1]; exact H0
      obtain ⟨hmem, hnode, hcidr⟩ := findRouteRow_spec hf
      have hkeys' := saveRouteRow_routeKeys hmem hids (enabledRow_routeId table route)
        (enabledRow_nodeId table route) (enabledRow_cidr table route)
      have hother' := saveRouteRow_other hmem hids (enabledRow_routeId table route)
        hnode ((enabledRow_nodeId table route).trans hnode)
      have ih' := ih (saveRouteRow table (enabledRow table route))
        (hkeys'.trans h1) (hother'.trans h2)
      have hstep : (∃ r ∈ table, r.nodeId = node.id ∧ r.cidr = p ∧
          r.enabled = true ∧ r.isPrimary = true) →
          ∃ r ∈ saveRouteRow table (enabledRow table route),
            r.nodeId = node.id ∧ r.cidr = p ∧ r.enabled = true ∧ r.isPrimary = true := by
        rintro ⟨r, hr, hrn, hrc, hre, hrp⟩
        by_cases hrid : r.routeId = (enabledRow table route).routeId
        · have hre2 : r = route :=
            route_eq_of_id_eq hids hr hmem (hrid.trans (enabledRow_routeId table route))
          subst hre2
          have hnex : r.cidr.isExit = false := by rw [hrc]; exact Hexit
          have hrow := @enabledRow_of_nonexit table _ hnex
          refine ⟨enabledRow table r,
            mem_saveRouteRow_self hr (enabledRow_routeId table r), ?_, ?_, ?_, ?_⟩
          · rw [hrow]; exact hrn
          · rw [hrow]; exact hrc
          · rw [hrow]
          · rw [hrow]
            show isUniqueSubnet table { r with enabled := true } = true
            rw [isUniqueSubnet_enabled]
            exact isUniqueSubnet_of_sole h2 Hsole hrn hrc
        · exact ⟨r, mem_saveRouteRow_of_ne hr hrid, hrn, hrc, hre, hrp⟩
      constructor
      · intro hQ
        simp only [enableRoutesLoop, hf]
        exact ih'.1 (hstep hQ)
      · intro hp hok
        simp only [enableRoutesLoop, hf] at hok ⊢
        rcases List.mem_cons.mp hp with rfl | hp'
        · have hnex : route.cidr.isExit = false := by rw [hcidr]; exact Hexit
          have hrow := @enabledRow_of_nonexit table _ hnex
          apply ih'.1
          refine ⟨enabledRow table route,
            mem_saveRouteRow_self hmem (enabledRow_routeId table route), ?_, ?_, ?_, ?_⟩
          · rw [hrow]; exact hnode
          · rw [hrow]; exact hcidr
          · rw [hrow]
          · rw [hrow]
            show isUniqueSubnet table { route with enabled := true } = true
            rw [isUniqueSubnet_enabled]
            exact isUniqueSubnet_of_sole h2 Hsole hnode hcidr
        · exact ih'.2 hp' hok

lemma enableRoutesLoop_exit_pres (node : Node) (table₀ : List Route) (p : Cidr)
    (v : Bool) (H0 : (table₀.map Route.routeId).Nodup) (Hexit : p.isExit = true) :
    ∀ (ps : List Cidr) (table : List Route),
      routeKeys table = routeKeys table₀ →
      (∃ r ∈ table, r.nodeId = node.id ∧ r.cidr = p ∧ r.isPrimary = v) →
      ∃ r ∈ (enableRoutesLoop node ps table).2,
        r.nodeId = node.id ∧ r.cidr = p ∧ r.isPrimary = v := by
  intro ps
  induction ps with
  | nil =>
    intro table _ hQ
    exact hQ
  | cons q' ps ih =>
    intro table h1 hQ
    rcases hf : findRouteRow table node.id q' with _ | route
    · simpa only [enableRoutesLoop, hf] using hQ
    · have hids : (table.map Route.routeId).Nodup := by
        rw [routeIds_eq_of_routeKeys_eq h1]; exact H0
      obtain ⟨hmem, hnode, hcidr⟩ := findRouteRow_spec hf
      have hkeys' := saveRouteRow_routeKeys hmem hids (enabledRow_routeId table route)
        (enabledRow_nodeId table route) (enabledRow_cidr table route)
      simp only [enableRoutesLoop, hf]
      apply ih _ (hkeys'.trans h1)
      obtain ⟨r, hr, hrn, hrc, hrp⟩ := hQ
      by_cases hrid : r.routeId = (enabledRow table route).routeId
      · have hre2 : r = route :=
          route_eq_of_id_eq hids hr hmem (hrid.trans (enabledRow_routeId table route))
        subst hre2
        have hex : r.cidr.isExit = true := by rw [hrc]; exact Hexit
        have hrow := @enabledRow_of_exit table _ hex
        refine ⟨enabledRow table r,
          mem_saveRouteRow_self hr (enabledRow_routeId table r), ?_, ?_, ?_⟩
        · rw [hrow]; exact hrn
        · rw [hrow]; exact hrc
        · rw [hrow]; exact hrp
      · exact ⟨r, mem_saveRouteRow_of_ne hr hrid, hrn, hrc, hrp⟩

/-- C3: primary election at enable time.  Under distinct route-row ids:
(i) when a validated batch succeeds and contains a non-exit prefix of which
the enabling node is the only offerer (no other node's row advertises or
enables it), the resulting table holds the node's row for that prefix with
enabled and primary both set; (ii) for an exit-route prefix the node's row
keeps exactly the primary flag it had — exit routes are never auto-marked
primary; (iii) every route row of any other node is untouched, so a second
node enabling the same prefix later never changes the first node's primary
flag. -/
theorem enableRoutes_primary_election (table : List Route) (node : Node)
    (newRoutes : List Cidr) (p : Cidr)
    (Hids : (table.map Route.routeId).Nodup) :
    ((p ∈ newRoutes) → p.isExit = false →
      (∀ q ∈ table, q.nodeId ≠ node.id → q.cidr = p →
        q.advertised = false ∧ q.enabled = false) →
      (∃ u, (enableRoutes table node newRoutes).1 = .ok u) →
      ∃ r ∈ (enableRoutes table node newRoutes).2,
        r.nodeId = node.id ∧ r.cidr = p ∧ r.enabled = true ∧ r.isPrimary = true) ∧
    (∀ r₀ ∈ table, p.isExit = true → r₀.nodeId = node.id → r₀.cidr = p →
      ∃ r ∈ (enableRoutes table node newRoutes).2,
        r.nodeId = node.id ∧ r.cidr = p ∧ r.isPrimary = r₀.isPrimary) ∧
    (∀ r ∈ table, r.nodeId ≠ node.id → r ∈ (enableRoutes table node newRoutes).2) := by
  by_cases hall : ∀ x ∈ newRoutes, x ∈ GetAdvertisedRoutes table node
  case neg =>
    have h1 : (enableRoutes table node newRoutes).1 = .error .routeNotAvailable := by
      simp [enableRoutes, hall]
    have h2 : (enableRoutes table node newRoutes).2 = table := by
      simp [enableRoutes, hall]
    refine ⟨?_, ?_, ?_⟩
    · rintro _ _ _ ⟨u, hu⟩
      rw [h1] at hu
      exact absurd hu (by simp)
    · intro r₀ hr₀ _ hrn hrc
      rw [h2]
      exact ⟨r₀, hr₀, hrn, hrc, rfl⟩
    · intro r hr _
      rw [h2]
      exact hr
  case pos =>
    rcases hl : enableRoutesLoop node newRoutes table with ⟨out, table'⟩
    have h2 : (enableRoutes table node newRoutes).2 = table' := by
      simp only [enableRoutes]
      rw [if_pos (by simpa using hall), hl]
      rcases out with e | u <;> rfl
    refine ⟨?_, ?_, ?_⟩
    · rintro hp hexit hsole ⟨u, hu⟩
      have hok : (enableRoutesLoop node newRoutes table).1 = .ok () := by
        rw [hl]
        rcases out with e | u'
        · exfalso
          have : (enableRoutes table node newRoutes).1 = .error e := by
            simp only [enableRoutes]
            rw [if_pos (by simpa using hall), hl]
          rw [this] at hu
          exact absurd hu (by simp)
        · rfl
      have hest := (enableRoutesLoop_establish node table p Hids hexit hsole
        newRoutes table rfl rfl).2 hp hok
      rw [hl] at hest
      rw [h2]
      exact hest
    · intro r₀ hr₀ hexit hrn hrc
      have hpres := enableRoutesLoop_exit_pres node table p r₀.isPrimary Hids hexit
        newRoutes table rfl ⟨r₀, hr₀, hrn, hrc, rfl⟩
      rw [hl] at hpres
      rw [h2]
      exact hpres
    · intro r hr hrne
      have hpres := (enableRoutesLoop_pres node table Hids newRoutes table rfl rfl).2
      rw [hl] at hpres
      have hrother : r ∈ otherRows node.id table :=
        List.mem_filter.mpr ⟨hr, by simpa using hrne⟩
      rw [h2]
      have : r ∈ otherRows node.id table' := by rw [hpres]; exact hrother
      exact List.mem_of_mem_filter this

/-- An advertised exit-route row of node 1. -/
def routeRowExit : Route :=
  { routeId := 2, nodeId := 1, cidr := { addr := 0, bits := 0 },
    advertised := true, enabled := false, isPrimary := false }

/-- An enabled primary row of node 2 for an unrelated prefix. -/
def routeRowB : Route :=
  { routeId := 3, nodeId := 2, cidr := { addr := 77, bits := 24 },
    advertised := true, enabled := true, isPrimary := true }

def electionTable : List Route := [routeRow1, routeRowExit, routeRowB]

/-- Witness for C3 at concrete inputs: node 1 enables 10/24 of which it is
the sole offerer — the row comes out enabled and primary, node 1's exit
row keeps its primary flag, and node 2's row is untouched. -/
theorem enableRoutes_primary_election_witness :
    (∃ r ∈ (enableRoutes electionTable nodeA [{ addr := 10, bits := 24 }]).2,
      r.nodeId = 1 ∧ r.cidr = { addr := 10, bits := 24 } ∧
      r.enabled = true ∧ r.isPrimary = true) ∧
    (∃ r ∈ (enableRoutes electionTable nodeA [{ addr := 10, bits := 24 }]).2,
      r.nodeId = 1 ∧ r.cidr = { addr := 0, bits := 0 } ∧
      r.isPrimary = routeRowExit.isPrimary) ∧
    routeRowB ∈ (enableRoutes electionTable nodeA [{ addr := 10, bits := 24 }]).2 := by
  have h1 := enableRoutes_primary_election electionTable nodeA
    [{ addr := 10, bits := 24 }] { addr := 10, bits := 24 } (by decide)
  have h2 := enableRoutes_primary_election electionTable nodeA
    [{ addr := 10, bits := 24 }] { addr := 0, bits := 0 } (by decide)
  refine ⟨?_, ?_, ?_⟩
  · exact h1.1 (by decide) (by decide) (by decide) ⟨_, rfl⟩
  · exact h2.2.1 routeRowExit (by decide) (by decide) (by decide) (by decide)
  · exact h1.2.2 routeRowB (by decide) (by decide)

/-- The safe character set of the DNS-label normalizer. -/
def isDNSSafeChar (c : Char) : Bool :=
  c.isLower || c.isDigit || c == '-'

/-- The sanitizing pass of the normalizer: lower-case the name and replace
every character outside the safe set. -/
def sanitizeHostname (s : String) : String :=
  ⟨s.data.map (fun c => if isDNSSafeChar c.toLower then c.toLower else '-')⟩

/-- Modelled from the spec: `util.NormalizeToFQDNRulesConfigFromViper` —
"normalizes the device-supplied hostname to DNS label rules (length ≤ 63
characters, safe character set)"; a name that does not fit the label limit
is rejected. -/
def normalizeToFQDNRules (s : String) : Except NameError String :=
  if (sanitizeHostname s).length > labelHostnameLength then .error .invalidName
  else .ok (sanitizeHostname s)

/-- `generateGivenName` (node.go:625).  The random DNS-safe suffix produced
by `util.GenerateRandomStringDNSSafe` is an external input and therefore a
parameter of the embedding. -/
def generateGivenName (suffix : String) (suppliedName : String)
    (randomSuffix : Bool) : Except NameError String :=
  match normalizeToFQDNRules suppliedName with
  | .error e => .error e
  | .ok normalizedHostname =>
    if randomSuffix then
      .ok ((if normalizedHostname.length >
          labelHostnameLength - NodeGivenNameHashLength - NodeGivenNameTrimSize then
          (⟨normalizedHostname.data.take
            (labelHostnameLength - NodeGivenNameHashLength - NodeGivenNameTrimSize)⟩ : String)
        else normalizedHostname) ++ "-" ++ suffix)
    else
      .ok normalizedHostname

/-- `listNodesByGivenName` (node.go:86): the nodes whose given_name equals
the argument. -/
def listNodesByGivenName (db : List Node) (givenName : String) : List Node :=
  db.filter (fun n => n.givenName == givenName)

/-- The selection loop of `GenerateGivenName` (node.go:677-681): the last
listed node whose given name matches. -/
def findNodeWithGivenName (nodes : List Node) (givenName : String) : Option Node :=
  nodes.foldl
    (fun nodeFound n => if n.givenName == givenName then some n else nodeFound) none

/-- `GenerateGivenName` (node.go:660): normalize without a suffix; if a
node already holds the name and its machine key differs from the
requester's, regenerate with the random suffix, otherwise reuse the name. -/
def GenerateGivenName (suffix : String) (db : List Node)
    (mkey suppliedName : String) : Except NameError String :=
  match generateGivenName suffix suppliedName false with
  | .error e => .error e
  | .ok givenName =>
    match findNodeWithGivenName (listNodesByGivenName db givenName) givenName with
    | some nodeFound =>
      if nodeFound.machineKey != mkey then
        generateGivenName suffix suppliedName true
      else
        .ok givenName
    | none => .ok givenName

lemma generateGivenName_false (suffix s : String) :
    generateGivenName suffix s false = normalizeToFQDNRules s := by
  unfold generateGivenName
  rcases h : normalizeToFQDNRules s with e | t <;> simp [h]

lemma generateGivenName_true {suffix s base : String}
    (hbase : normalizeToFQDNRules s = .ok base) :
    generateGivenName suffix s true =
      .ok ((if base.length >
          labelHostnameLength - NodeGivenNameHashLength - NodeGivenNameTrimSize then
          (⟨base.data.take
            (labelHostnameLength - NodeGivenNameHashLength - NodeGivenNameTrimSize)⟩ : String)
        else base) ++ "-" ++ suffix) := by
  unfold generateGivenName
  rw [hbase]
  rfl

lemma normalizeToFQDNRules_length {s base : String}
    (h : normalizeToFQDNRules s = .ok base) : base.length ≤ labelHostnameLength := by
  unfold normalizeToFQDNRules at h
  by_cases hl : (sanitizeHostname s).length > labelHostnameLength
  · rw [if_pos hl] at h
    exact absurd h (by simp)
  · rw [if_neg hl] at h
    have hb : sanitizeHostname s = base := Except.ok.inj h
    rw [← hb]
    omega

lemma foldlFind_mem (g : String) :
    ∀ (l : List Node) (init : Option Node) (x : Node),
      l.foldl (fun acc n => if n.givenName == g then some n else acc) init = some x →
      init = some x ∨ x ∈ l := by
  intro l
  induction l with
  | nil =>
    intro init x h
    exact Or.inl h
  | cons a t ih =>
    intro init x h
    rw [List.foldl_cons] at h
    rcases ih _ x h with hstep | hmem
    · by_cases hg : (a.givenName == g) = true
      · rw [if_pos hg] at hstep
        have ha : a = x := Option.some.inj hstep
        subst ha
        exact Or.inr (List.mem_cons_self a t)
      · rw [if_neg hg] at hstep
        exact Or.inl hstep
    · exact Or.inr (List.mem_cons_of_mem a hmem)

lemma foldlFind_some (g : String) :
    ∀ (l : List Node) (a₀ : Node), (∀ n ∈ l, (n.givenName == g) = true) →
      ∃ x, l.foldl (fun acc n => if n.givenName == g then some n else acc)
          (some a₀) = some x ∧ (x = a₀ ∨ x ∈ l) := by
  intro l
  induction l with
  | nil =>
    intro a₀ _
    exact ⟨a₀, rfl, Or.inl rfl⟩
  | cons a t ih =>
    intro a₀ hall
    have ha : (a.givenName == g) = true := hall a (by simp)
    obtain ⟨x, hx, hor⟩ := ih a (fun n hn => hall n (by simp [hn]))
    refine ⟨x, ?_, ?_⟩
    · rw [List.foldl_cons]
      show t.foldl _ (if (a.givenName == g) = true then some a else some a₀) = some x
      rw [if_pos ha]
      exact hx
    · rcases hor with rfl | hm
      · exact Or.inr (by simp)
      · exact Or.inr (by simp [hm])

lemma findNodeWithGivenName_mem {l : List Node} {g : String} {x : Node}
    (h : findNodeWithGivenName l g = some x) : x ∈ l := by
  unfold findNodeWithGivenName at h
  rcases foldlFind_mem g l none x h with hn | hm
  · exact absurd hn (by simp)
  · exact hm

lemma findNodeWithGivenName_of_ne {db : List Node} {g : String}
    (hne : listNodesByGivenName db g ≠ []) :
    ∃ x, findNodeWithGivenName (listNodesByGivenName db g) g = some x ∧
      x ∈ listNodesByGivenName db g := by
  rcases hv : listNodesByGivenName db g with _ | ⟨a, t⟩
  · exact absurd hv hne
  · have hall : ∀ n ∈ a :: t, (n.givenName == g) = true := by
      intro n hn
      have hn' : n ∈ listNodesByGivenName db g := by rw [hv]; exact hn
      unfold listNodesByGivenName at hn'
      exact (List.mem_filter.mp hn').2
    have ha : (a.givenName == g) = true := hall a (by simp)
    obtain ⟨x, hx, hor⟩ := foldlFind_some g t a (fun n hn => hall n (by simp [hn]))
    refine ⟨x, ?_, ?_⟩
    · unfold findNodeWithGivenName
      rw [List.foldl_cons]
      show t.foldl _ (if (a.givenName == g) = true then some a else none) = some x
      rw [if_pos ha]
      exact hx
    · rcases hor with rfl | hm
      · exact List.mem_cons_self x t
      · exact List.mem_cons_of_mem a hm

lemma suffixedName_length {base suffix : String} (hs : suffix.length = 8) :
    ((if base.length > labelHostnameLength - NodeGivenNameHashLength -
        NodeGivenNameTrimSize then
        (⟨base.data.take (labelHostnameLength - NodeGivenNameHashLength -
          NodeGivenNameTrimSize)⟩ : String)
      else base) ++ "-" ++ suffix).length ≤ labelHostnameLength := by
  rw [String.length_append, String.length_append]
  have hdash : ("-" : String).length = 1 := rfl
  rw [hdash, hs]
  by_cases hlen : base.length > labelHostnameLength - NodeGivenNameHashLength -
      NodeGivenNameTrimSize
  · rw [if_pos hlen]
    have htake : (⟨base.data.take (labelHostnameLength - NodeGivenNameHashLength -
        NodeGivenNameTrimSize)⟩ : String).length =
        min (labelHostnameLength - NodeGivenNameHashLength -
          NodeGivenNameTrimSize) base.data.length := by
      show (base.data.take _).length = _
      exact List.length_take _ _
    rw [htake]
    show min (labelHostnameLength - NodeGivenNameHashLength -
      NodeGivenNameTrimSize) base.data.length + 1 + 8 ≤ 63
    have hc : labelHostnameLength - NodeGivenNameHashLength -
        NodeGivenNameTrimSize = 53 := rfl
    rw [hc]
    omega
  · rw [if_neg hlen]
    show base.length + 1 + 8 ≤ 63
    have hc : labelHostnameLength - NodeGivenNameHashLength -
        NodeGivenNameTrimSize = 53 := rfl
    rw [hc] at hlen
    have hb' : base.length ≤ 53 := by omega
    omega

/-- C8: given-name generation.  With the normal form `base` of the supplied
hostname: when no node holds `base`, or every node holding it has the
requester's machine key, the name is returned unchanged; when nodes holding
it all carry a different machine key, the result is the base trimmed to 53
characters and extended with a dash and the 8-character random suffix; and
every successful result fits the 63-character DNS label limit. -/
theorem generateGivenName_collision_handling (suffix : String) (db : List Node)
    (mkey suppliedName base : String)
    (hsuf : suffix.length = 8)
    (hbase : normalizeToFQDNRules suppliedName = .ok base) :
    ((∀ n ∈ db, n.givenName = base → n.machineKey = mkey) →
      GenerateGivenName suffix db mkey suppliedName = .ok base) ∧
    ((∃ n ∈ db, n.givenName = base) →
      (∀ n ∈ db, n.givenName = base → n.machineKey ≠ mkey) →
      GenerateGivenName suffix db mkey suppliedName =
        .ok ((if base.length > labelHostnameLength - NodeGivenNameHashLength -
            NodeGivenNameTrimSize then
            (⟨base.data.take (labelHostnameLength - NodeGivenNameHashLength -
              NodeGivenNameTrimSize)⟩ : String)
          else base) ++ "-" ++ suffix)) ∧
    (∀ t, GenerateGivenName suffix db mkey suppliedName = .ok t →
      t.length ≤ labelHostnameLength) := by
  have hg : generateGivenName suffix suppliedName false = .ok base := by
    rw [generateGivenName_false]
    exact hbase
  have hGG : GenerateGivenName suffix db mkey suppliedName =
      (match findNodeWithGivenName (listNodesByGivenName db base) base with
       | some nodeFound =>
         if nodeFound.machineKey != mkey then
           generateGivenName suffix suppliedName true
         else .ok base
       | none => .ok base) := by
    unfold GenerateGivenName
    rw [hg]
  refine ⟨?_, ?_, ?_⟩
  · intro hsame
    rw [hGG]
    rcases hf : findNodeWithGivenName (listNodesByGivenName db base) base with _ | x
    · rfl
    · have hx : x ∈ List.filter (fun n => n.givenName == base) db :=
        findNodeWithGivenName_mem hf
      have hxf := List.mem_filter.mp hx
      have hk : x.machineKey = mkey := hsame x hxf.1 (beq_iff_eq.mp hxf.2)
      simp [hk]
  · rintro ⟨n₀, hn₀, hgn₀⟩ hdiff
    have hne : listNodesByGivenName db base ≠ [] := by
      have hm : n₀ ∈ listNodesByGivenName db base := by
        unfold listNodesByGivenName
        exact List.mem_filter.mpr ⟨hn₀, by simp [hgn₀]⟩
      exact List.ne_nil_of_mem hm
    obtain ⟨x, hf, hxmem⟩ := findNodeWithGivenName_of_ne hne
    have hx : x ∈ List.filter (fun n => n.givenName == base) db := hxmem
    have hxf := List.mem_filter.mp hx
    have hk : x.machineKey ≠ mkey := hdiff x hxf.1 (beq_iff_eq.mp hxf.2)
    rw [hGG]
    simp only [hf]
    rw [if_pos (bne_iff_ne.mpr hk)]
    exact generateGivenName_true hbase
  · intro t ht
    have hblen : base.length ≤ labelHostnameLength := normalizeToFQDNRules_length hbase
    rw [hGG] at ht
    rcases hf : findNodeWithGivenName (listNodesByGivenName db base) base with _ | x
    · rw [hf] at ht
      have ht' : (Except.ok base : Except NameError String) = .ok t := ht
      rw [← Except.ok.inj ht']
      exact hblen
    · rw [hf] at ht
      have ht' : (if x.machineKey != mkey then
          generateGivenName suffix suppliedName true
        else .ok base) = .ok t := ht
      by_cases hbk : (x.machineKey != mkey) = true
      · rw [if_pos hbk, generateGivenName_true hbase] at ht'
        rw [← Except.ok.inj ht']
        exact suffixedName_length hsuf
      · rw [if_neg hbk] at ht'
        rw [← Except.ok.inj ht']
        exact hblen

/-- A node of a different machine key that already holds the name
"laptop". -/
def nodeLaptop : Node :=
  { id := 7, machineKey := "mk2", nodeKey := "nk", userId := 1,
    hostname := "laptop", givenName := "laptop", ipAddresses := ["100.64.0.9"],
    forcedTags := [], expiry := none, lastSeen := none, ephemeral := false,
    registerMethod := "cli" }

/-- Witness for C8 at concrete inputs: against a registry where another
machine holds "laptop", the requester gets the suffixed name; against an
empty registry the name is reused unchanged. -/
theorem generateGivenName_collision_handling_witness :
    GenerateGivenName "abcd0123" [nodeLaptop] "mk1" "laptop" =
      .ok ((if ("laptop" : String).length > labelHostnameLength -
          NodeGivenNameHashLength - NodeGivenNameTrimSize then
          (⟨("laptop" : String).data.take (labelHostnameLength -
            NodeGivenNameHashLength - NodeGivenNameTrimSize)⟩ : String)
        else "laptop") ++ "-" ++ "abcd0123") ∧
    GenerateGivenName "abcd0123" [] "mk1" "laptop" = .ok "laptop" := by
  have h1 := generateGivenName_collision_handling "abcd0123" [nodeLaptop] "mk1"
    "laptop" "laptop" (by decide) (by rfl)
  have h2 := generateGivenName_collision_handling "abcd0123" [] "mk1"
    "laptop" "laptop" (by decide) (by rfl)
  refine ⟨?_, ?_⟩
  · exact h1.2.1 ⟨nodeLaptop, by decide, by rfl⟩ (by decide)
  · exact h2.1 (by intro n hn; exact absurd hn (List.not_mem_nil n))

/-- Modelled from the spec: `types.Node.IsEphemeral` — the node is "flagged
`Ephemeral`". -/
def nodeIsEphemeral (n : Node) : Bool :=
  n.ephemeral

/-- Modelled from the spec: `types.Node.IsExpired` — "`Expiry` (nullable;
null = never expires)"; a node is expired when its expiry is set and lies
before the clock reading. -/
def nodeIsExpired (now : Int) (n : Node) : Bool :=
  match n.expiry with
  | some e => decide (e < now)
  | none => false

/-- The ephemeral-inactivity condition of the sweep (node.go:718-720):
flagged ephemeral, a last-seen timestamp recorded, and that timestamp plus
the threshold lies before the clock. -/
def ephemeralQualifies (now threshold : Int) (n : Node) : Bool :=
  nodeIsEphemeral n && (match n.lastSeen with
    | some ls => decide (ls + threshold < now)
    | none => false)

/-- Modelled from the spec: `ListNodesByUser` — all nodes of the user. -/
def ListNodesByUser (nodes : List Node) (u : User) : List Node :=
  nodes.filter (fun n => n.userId == u.id)

/-- `tx.Unscoped().Delete` on the node table (node.go:290): the row with
the primary key is fully removed. -/
def deleteNodeRow (nodes : List Node) (nid : Nat) : List Node :=
  nodes.filter (fun m => m.id != nid)

/-- The inner loop of the ephemeral sweep over one user's node snapshot
(node.go:717-736): a qualifying node's id is collected first, then its
deletion is attempted; `delOK` stands for whether the store deletion
succeeds — a failure is only logged and the loop continues. -/
def expireEphemeralUserPass (now threshold : Int) (delOK : Nat → Bool) :
    List Node → List Node × List Nat → List Node × List Nat
  | [], s => s
  | n :: rest, (db, expired) =>
    if ephemeralQualifies now threshold n then
      expireEphemeralUserPass now threshold delOK rest
        (if delOK n.id then deleteNodeRow db n.id else db, expired ++ [n.id])
    else
      expireEphemeralUserPass now threshold delOK rest (db, expired)

/-- The outer loop of the ephemeral sweep over all users (node.go:706). -/
def expireEphemeralUsers (now threshold : Int) (delOK : Nat → Bool) :
    List User → List Node × List Nat → List Node × List Nat
  | [], s => s
  | u :: us, (db, expired) =>
    expireEphemeralUsers now threshold delOK us
      (expireEphemeralUserPass now threshold delOK (ListNodesByUser db u)
        (db, expired))

/-- `ExpireEphemeralNodes` (node.go:695): sweep every user's nodes, collect
the ids of qualifying nodes, delete them best-effort, and return a
peer-removed update when anything qualified.  The clock readings of one
invocation are collapsed into the one `now` parameter. -/
def ExpireEphemeralNodes (now : Int) (delOK : Nat → Bool) (users : List User)
    (db : List Node) (inactivityThreshold : Int) :
    List Node × StateUpdate × Bool :=
  match expireEphemeralUsers now inactivityThreshold delOK users (db, []) with
  | (db', expired) =>
    if expired.length > 0 then (db', .peerRemoved expired, true)
    else (db', .empty, false)

lemma expireEphemeralUserPass_mono (now threshold : Int) (delOK : Nat → Bool)
    (x : Nat) : ∀ (l db : List Node) (expired : List Nat), x ∈ expired →
    x ∈ (expireEphemeralUserPass now threshold delOK l (db, expired)).2 := by
  intro l
  induction l with
  | nil =>
    intro db e hx
    exact hx
  | cons n rest ih =>
    intro db e hx
    by_cases hq : ephemeralQualifies now threshold n = true
    · simp only [expireEphemeralUserPass, hq, if_true]
      exact ih _ _ (by simp [hx])
    · have hq' : ephemeralQualifies now threshold n = false := by simpa using hq
      simp only [expireEphemeralUserPass, hq', Bool.false_eq_true, if_false]
      exact ih _ _ hx

lemma expireEphemeralUserPass_collects (now threshold : Int) (delOK : Nat → Bool)
    (m : Node) (hq : ephemeralQualifies now threshold m = true) :
    ∀ (l db : List Node) (expired : List Nat), m ∈ l →
    m.id ∈ (expireEphemeralUserPass now threshold delOK l (db, expired)).2 := by
  intro l
  induction l with
  | nil =>
    intro db e hm
    exact absurd hm (List.not_mem_nil m)
  | cons n rest ih =>
    intro db e hm
    rcases List.mem_cons.mp hm with rfl | hm'
    · simp only [expireEphemeralUserPass, hq, if_true]
      exact expireEphemeralUserPass_mono now threshold delOK m.id rest _ _ (by simp)
    · by_cases hqn : ephemeralQualifies now threshold n = true
      · simp only [expireEphemeralUserPass, hqn, if_true]
        exact ih _ _ hm'
      · have hqn' : ephemeralQualifies now threshold n = false := by simpa using hqn
        simp only [expireEphemeralUserPass, hqn', Bool.false_eq_true, if_false]
        exact ih _ _ hm'

lemma expireEphemeralUserPass_inDbOr (now threshold : Int) (delOK : Nat → Bool)
    (x : Node) : ∀ (l db : List Node) (expired : List Nat),
    (x ∈ db ∨ x.id ∈ expired) →
    (x ∈ (expireEphemeralUserPass now threshold delOK l (db, expired)).1 ∨
      x.id ∈ (expireEphemeralUserPass now threshold delOK l (db, expired)).2) := by
  intro l
  induction l with
  | nil =>
    intro db e hin
    exact hin
  | cons n rest ih =>
    intro db e hin
    by_cases hqn : ephemeralQualifies now threshold n = true
    · simp only [expireEphemeralUserPass, hqn, if_true]
      rcases hin with hdb | hex
      · by_cases hxid : x.id = n.id
        · exact ih _ _ (Or.inr (by simp [hxid]))
        · refine ih _ _ (Or.inl ?_)
          by_cases hdel : delOK n.id = true
          · rw [if_pos hdel]
            unfold deleteNodeRow
            exact List.mem_filter.mpr ⟨hdb, by simpa using hxid⟩
          · rw [if_neg hdel]
            exact hdb
      · exact ih _ _ (Or.inr (by simp [hex]))
    · have hqn' : ephemeralQualifies now threshold n = false := by simpa using hqn
      simp only [expireEphemeralUserPass, hqn', Bool.false_eq_true, if_false]
      exact ih _ _ hin

lemma expireEphemeralUserPass_keeps (now threshold : Int) (delOK : Nat → Bool)
    (x : Node) (hdel : delOK x.id = false) :
    ∀ (l db : List Node) (expired : List Nat), x ∈ db →
    x ∈ (expireEphemeralUserPass now threshold delOK l (db, expired)).1 := by
  intro l
  induction l with
  | nil =>
    intro db e hx
    exact hx
  | cons n rest ih =>
    intro db e hx
    by_cases hqn : ephemeralQualifies now threshold n = true
    · simp only [expireEphemeralUserPass, hqn, if_true]
      refine ih _ _ ?_
      by_cases hd : delOK n.id = true
      · rw [if_pos hd]
        unfold deleteNodeRow
        refine List.mem_filter.mpr ⟨hx, ?_⟩
        have hne : x.id ≠ n.id := by
          intro he
          rw [he] at hdel
          rw [hdel] at hd
          exact absurd hd (by simp)
        simpa using hne
      · rw [if_neg hd]
        exact hx
    · have hqn' : ephemeralQualifies now threshold n = false := by simpa using hqn
      simp only [expireEphemeralUserPass, hqn', Bool.false_eq_true, if_false]
      exact ih _ _ hx

lemma expireEphemeralUsers_mono (now threshold : Int) (delOK : Nat → Bool)
    (x : Nat) : ∀ (us : List User) (s : List Node × List Nat), x ∈ s.2 →
    x ∈ (expireEphemeralUsers now threshold delOK us s).2 := by
  intro us
  induction us with
  | nil =>
    intro s hx
    exact hx
  | cons u us ih =>
    intro s hx
    obtain ⟨db, e⟩ := s
    simp only [expireEphemeralUsers]
    exact ih _ (expireEphemeralUserPass_mono now threshold delOK x _ db e hx)

lemma expireEphemeralUsers_keeps (now threshold : Int) (delOK : Nat → Bool)
    (x : Node) (hdel : delOK x.id = false) :
    ∀ (us : List User) (s : List Node × List Nat), x ∈ s.1 →
    x ∈ (expireEphemeralUsers now threshold delOK us s).1 := by
  intro us
  induction us with
  | nil =>
    intro s hx
    exact hx
  | cons u us ih =>
    intro s hx
    obtain ⟨db, e⟩ := s
    simp only [expireEphemeralUsers]
    exact ih _ (expireEphemeralUserPass_keeps now threshold delOK x hdel _ db e hx)

lemma expireEphemeralUsers_collects (now threshold : Int) (delOK : Nat → Bool)
    (x : Node) (hq : ephemeralQualifies now threshold x = true) :
    ∀ (us : List User) (s : List Node × List Nat),
    ((x ∈ s.1 ∧ ∃ u ∈ us, x.userId = u.id) ∨ x.id ∈ s.2) →
    x.id ∈ (expireEphemeralUsers now threshold delOK us s).2 := by
  intro us
  induction us with
  | nil =>
    intro s hin
    rcases hin with ⟨_, u, hu, _⟩ | hx
    · exact absurd hu (List.not_mem_nil u)
    · exact hx
  | cons u us ih =>
    intro s hin
    obtain ⟨db, e⟩ := s
    simp only [expireEphemeralUsers]
    rcases hin with ⟨hdb, u', hu', huid⟩ | hex
    · rcases List.mem_cons.mp hu' with rfl | hu''
      · refine ih _ (Or.inr ?_)
        refine expireEphemeralUserPass_collects now threshold delOK x hq _ db e ?_
        unfold ListNodesByUser
        exact List.mem_filter.mpr ⟨hdb, by simp [huid]⟩
      · rcases expireEphemeralUserPass_inDbOr now threshold delOK x
          (ListNodesByUser db u) db e (Or.inl hdb) with hin1 | hin2
        · exact ih _ (Or.inl ⟨hin1, u', hu'', huid⟩)
        · exact ih _ (Or.inr hin2)
    · refine ih _ (Or.inr ?_)
      exact expireEphemeralUserPass_mono now threshold delOK x.id _ db e hex

/-- C10: the ephemeral sweep collects a qualifying node's id *before*
attempting its deletion, so the peer-removed event lists every node of the
listed users that met the ephemeral-inactivity condition — including a node
whose deletion failed (`delOK` false), which then also remains in the node
table. -/
theorem expireEphemeralNodes_reports_all_qualifying (now threshold : Int)
    (delOK : Nat → Bool) (users : List User) (db : List Node) (n : Node)
    (hn : n ∈ db) (hu : ∃ u ∈ users, n.userId = u.id)
    (hq : ephemeralQualifies now threshold n = true) :
    (∃ removed, (ExpireEphemeralNodes now delOK users db threshold).2.1 =
        .peerRemoved removed ∧ n.id ∈ removed ∧
      (ExpireEphemeralNodes now delOK users db threshold).2.2 = true) ∧
    (delOK n.id = false →
      n ∈ (ExpireEphemeralNodes now delOK users db threshold).1) := by
  obtain ⟨u, hu', huid⟩ := hu
  have hcol := expireEphemeralUsers_collects now threshold delOK n hq users
    (db, []) (Or.inl ⟨hn, u, hu', huid⟩)
  rcases hs : expireEphemeralUsers now threshold delOK users (db, []) with ⟨db', expired⟩
  rw [hs] at hcol
  have hlen : expired.length > 0 :=
    List.length_pos.mpr (List.ne_nil_of_mem hcol)
  have hred : ExpireEphemeralNodes now delOK users db threshold =
      (db', .peerRemoved expired, true) := by
    unfold ExpireEphemeralNodes
    rw [hs]
    simp [hlen]
  constructor
  · exact ⟨expired, by rw [hred], hcol, by rw [hred]⟩
  · intro hdel
    have hkeep := expireEphemeralUsers_keeps now threshold delOK n hdel users
      (db, []) hn
    rw [hs] at hkeep
    rw [hred]
    exact hkeep

/-- An inactive ephemeral node of user 1, last seen at time 0. -/
def ephemeralNode : Node :=
  { id := 4, machineKey := "mk-eph", nodeKey := "nk-eph", userId := 1,
    hostname := "ephem", givenName := "ephem", ipAddresses := ["100.64.0.4"],
    forcedTags := [], expiry := none, lastSeen := some 0, ephemeral := true,
    registerMethod := "authkey" }

/-- Witness for C10 at concrete inputs: the node qualifies at time 100 with
threshold 10, its deletion fails, and it is both reported removed and still
present. -/
theorem expireEphemeralNodes_reports_all_qualifying_witness :
    (∃ removed,
      (ExpireEphemeralNodes 100 (fun _ => false) [{ id := 1, name := "u1" }]
        [ephemeralNode] 10).2.1 = .peerRemoved removed ∧
      ephemeralNode.id ∈ removed ∧
      (ExpireEphemeralNodes 100 (fun _ => false) [{ id := 1, name := "u1" }]
        [ephemeralNode] 10).2.2 = true) ∧
    ephemeralNode ∈ (ExpireEphemeralNodes 100 (fun _ => false)
      [{ id := 1, name := "u1" }] [ephemeralNode] 10).1 := by
  have h := expireEphemeralNodes_reports_all_qualifying 100 10 (fun _ => false)
    [{ id := 1, name := "u1" }] [ephemeralNode] ephemeralNode
    (by decide) ⟨{ id := 1, name := "u1" }, by decide, by decide⟩ (by decide)
  exact ⟨h.1, h.2 rfl⟩

/-- The newly-expired test of the expiry scan (node.go:769-773): the node's
computed expiry state is "expired" and its (pre-update) expiry lies after
the cursor. -/
def newlyExpired (now lastCheck : Int) (n : Node) : Bool :=
  nodeIsExpired now n && (match n.expiry with
    | some e => decide (lastCheck < e)
    | none => false)

/-- The scan of `ExpireExpiredNodes` (node.go:768-798): each newly-expired
node contributes a patch pair built from its id and its *pre-update*
expiry (the patch is appended before the row is written), and its stored
expiry is then set to the clock value. -/
def expireScan (now lastCheck : Int) : List Node →
    List (Nat × Option Int) × List Node
  | [] => ([], [])
  | n :: ns =>
    if newlyExpired now lastCheck n then
      ((n.id, n.expiry) :: (expireScan now lastCheck ns).1,
        { n with expiry := some now } :: (expireScan now lastCheck ns).2)
    else
      ((expireScan now lastCheck ns).1, n :: (expireScan now lastCheck ns).2)

/-- `ExpireExpiredNodes` (node.go:750): `started` is the clock reading
taken before the scan and is returned as the new cursor; the scan's patch
batch is returned as a peer-changed-patch update when non-empty.  The
clock readings of one invocation are collapsed into the one `now`
parameter. -/
def ExpireExpiredNodes (now : Int) (db : List Node) (lastCheck : Int) :
    Int × List Node × StateUpdate × Bool :=
  match expireScan now lastCheck db with
  | (expired, db') =>
    if expired.length > 0 then (now, db', .peerChangedPatch expired, true)
    else (now, db', .empty, false)

lemma expireScan_mem_qual (now lastCheck : Int) :
    ∀ (db : List Node) (n : Node), n ∈ db → newlyExpired now lastCheck n = true →
      (n.id, n.expiry) ∈ (expireScan now lastCheck db).1 ∧
      { n with expiry := some now } ∈ (expireScan now lastCheck db).2 := by
  intro db
  induction db with
  | nil =>
    intro n hn _
    exact absurd hn (List.not_mem_nil n)
  | cons m ns ih =>
    intro n hn hq
    rcases List.mem_cons.mp hn with rfl | hn'
    · simp only [expireScan, hq, if_true]
      exact ⟨List.mem_cons_self _ _, List.mem_cons_self _ _⟩
    · have := ih n hn' hq
      by_cases hm : newlyExpired now lastCheck m = true
      · simp only [expireScan, hm, if_true]
        exact ⟨List.mem_cons_of_mem _ this.1, List.mem_cons_of_mem _ this.2⟩
      · have hm' : newlyExpired now lastCheck m = false := by simpa using hm
        simp only [expireScan, hm', Bool.false_eq_true, if_false]
        exact ⟨this.1, List.mem_cons_of_mem _ this.2⟩

lemma expireScan_mem_nonqual (now lastCheck : Int) :
    ∀ (db : List Node) (n : Node), n ∈ db → newlyExpired now lastCheck n = false →
      n ∈ (expireScan now lastCheck db).2 := by
  intro db
  induction db with
  | nil =>
    intro n hn _
    exact absurd hn (List.not_mem_nil n)
  | cons m ns ih =>
    intro n hn hq
    rcases List.mem_cons.mp hn with rfl | hn'
    · simp only [expireScan, hq, Bool.false_eq_true, if_false]
      exact List.mem_cons_self _ _
    · by_cases hm : newlyExpired now lastCheck m = true
      · simp only [expireScan, hm, if_true]
        exact List.mem_cons_of_mem _ (ih n hn' hq)
      · have hm' : newlyExpired now lastCheck m = false := by simpa using hm
        simp only [expireScan, hm', Bool.false_eq_true, if_false]
        exact List.mem_cons_of_mem _ (ih n hn' hq)

lemma expireExpiredNodes_cursor (now lastCheck : Int) (db : List Node) :
    (ExpireExpiredNodes now db lastCheck).1 = now := by
  unfold ExpireExpiredNodes
  rcases hs : expireScan now lastCheck db with ⟨e, d⟩
  by_cases h : e.length > 0 <;> simp [h]

lemma expireExpiredNodes_db (now lastCheck : Int) (db : List Node) :
    (ExpireExpiredNodes now db lastCheck).2.1 = (expireScan now lastCheck db).2 := by
  unfold ExpireExpiredNodes
  rcases hs : expireScan now lastCheck db with ⟨e, d⟩
  by_cases h : e.length > 0 <;> simp [h]

lemma expireExpiredNodes_update_pos (now lastCheck : Int) (db : List Node)
    (h : (expireScan now lastCheck db).1 ≠ []) :
    (ExpireExpiredNodes now db lastCheck).2.2.1 =
      .peerChangedPatch (expireScan now lastCheck db).1 ∧
    (ExpireExpiredNodes now db lastCheck).2.2.2 = true := by
  unfold ExpireExpiredNodes
  rcases hs : expireScan now lastCheck db with ⟨e, d⟩
  rw [hs] at h
  have hlen : e.length > 0 := List.length_pos.mpr (by simpa using h)
  simp [hlen]

lemma expireExpiredNodes_update_none (now lastCheck : Int) (db : List Node)
    (h : (expireScan now lastCheck db).1 = []) :
    (ExpireExpiredNodes now db lastCheck).2.2.1 = .empty ∧
    (ExpireExpiredNodes now db lastCheck).2.2.2 = false := by
  unfold ExpireExpiredNodes
  rcases hs : expireScan now lastCheck db with ⟨e, d⟩
  rw [hs] at h
  have he : e = [] := h
  have hlen : ¬ e.length > 0 := by simp [he]
  simp [hlen]

/-- A node whose credential expired at time 5. -/
def expiredNode : Node :=
  { id := 1, machineKey := "mk-x", nodeKey := "nk-x", userId := 1,
    hostname := "worker", givenName := "worker", ipAddresses := ["100.64.0.3"],
    forcedTags := [], expiry := some 5, lastSeen := none, ephemeral := false,
    registerMethod := "cli" }

/-- C6 counterexample: at time 10 with cursor 0, the node expired at 5 is
swept — its stored expiry becomes 10, but the emitted patch carries the
*old* expiry 5 (the pair is appended before the row is updated), not the
new value 10 the claim asserts. -/
theorem expiry_sweep_patch_old_expiry_counterexample :
    (ExpireExpiredNodes 10 [expiredNode] 0).2.2.1 =
      .peerChangedPatch [(1, some 5)] ∧
    (ExpireExpiredNodes 10 [expiredNode] 0).2.1 =
      [{ expiredNode with expiry := some 10 }] ∧
    ((1, some 5) : Nat × Option Int) ≠ (1, some 10) := by
  refine ⟨rfl, rfl, by decide⟩

/-- C6 (amended): `ExpireExpiredNodes` returns the pre-scan clock reading
as the new cursor; every newly-expired node (expired, expiry after the
cursor) gets its stored expiry set to now and contributes a minimal patch
carrying its id and its *pre-update* expiry value; every other node is
untouched; a peer-changed-patch update with the whole batch is returned
when at least one node qualified, and a no-update result otherwise. -/
theorem expireExpiredNodes_spec_amended (now lastCheck : Int) (db : List Node) :
    (ExpireExpiredNodes now db lastCheck).1 = now ∧
    (∀ n ∈ db, newlyExpired now lastCheck n = true →
      (n.id, n.expiry) ∈ (expireScan now lastCheck db).1 ∧
      { n with expiry := some now } ∈ (ExpireExpiredNodes now db lastCheck).2.1) ∧
    (∀ n ∈ db, newlyExpired now lastCheck n = false →
      n ∈ (ExpireExpiredNodes now db lastCheck).2.1) ∧
    ((expireScan now lastCheck db).1 ≠ [] →
      (ExpireExpiredNodes now db lastCheck).2.2.1 =
        .peerChangedPatch (expireScan now lastCheck db).1 ∧
      (ExpireExpiredNodes now db lastCheck).2.2.2 = true) ∧
    ((expireScan now lastCheck db).1 = [] →
      (ExpireExpiredNodes now db lastCheck).2.2.1 = .empty ∧
      (ExpireExpiredNodes now db lastCheck).2.2.2 = false) := by
  refine ⟨expireExpiredNodes_cursor now lastCheck db, ?_, ?_, ?_, ?_⟩
  · intro n hn hq
    have h := expireScan_mem_qual now lastCheck db n hn hq
    rw [expireExpiredNodes_db]
    exact h
  · intro n hn hq
    rw [expireExpiredNodes_db]
    exact expireScan_mem_nonqual now lastCheck db n hn hq
  · exact expireExpiredNodes_update_pos now lastCheck db
  · exact expireExpiredNodes_update_none now lastCheck db

/-- Witness for C6's amended theorem at a concrete input. -/
theorem expireExpiredNodes_spec_amended_witness :
    (ExpireExpiredNodes 10 [expiredNode] 0).1 = 10 ∧
    (expiredNode.id, expiredNode.expiry) ∈ (expireScan 10 0 [expiredNode]).1 ∧
    { expiredNode with expiry := some 10 } ∈
      (ExpireExpiredNodes 10 [expiredNode] 0).2.1 := by
  have h := expireExpiredNodes_spec_amended 10 0 [expiredNode]
  have h2 := h.2.1 expiredNode (by decide) (by decide)
  exact ⟨h.1, h2.1, h2.2⟩

/-- C5 counterexample: with the clock advancing (10, then 20) and the same
cursor 0 for both runs, the node expired at 5 is reported by the first run
(patch (1, 5)) and reported *again* by the second run (patch (1, 10)):
its expiry was advanced to 10 by the first run, which is still after the
unchanged cursor 0 and before the second run's clock 20. -/
theorem expiry_sweep_double_report_counterexample :
    (ExpireExpiredNodes 10 [expiredNode] 0).2.2.1 =
      .peerChangedPatch [(1, some 5)] ∧
    (ExpireExpiredNodes 20 (ExpireExpiredNodes 10 [expiredNode] 0).2.1 0).2.2.1 =
      .peerChangedPatch [(1, some 10)] :=
  ⟨rfl, rfl⟩

/-- C5 (amended): running the expiry sweep twice with the *same* cursor
re-reports a node marked expired by the first run whenever the clock has
advanced between the runs: the first run set the node's expiry to its own
clock reading, which is still after the unchanged cursor and before the
second run's later clock, so the node qualifies again and the second run
emits a patch for it (with the re-report avoided only when the second
run's clock has not advanced past the first run's). -/
theorem expiry_sweep_rereports_amended (db : List Node)
    (lastCheck now1 now2 : Int) (n : Node) (hn : n ∈ db)
    (h1 : newlyExpired now1 lastCheck n = true)
    (h12 : now1 < now2) (hlc : lastCheck < now1) :
    (n.id, some now1) ∈
      (expireScan now2 lastCheck (ExpireExpiredNodes now1 db lastCheck).2.1).1 ∧
    (ExpireExpiredNodes now2 (ExpireExpiredNodes now1 db lastCheck).2.1
      lastCheck).2.2.2 = true := by
  have hmem1 : { n with expiry := some now1 } ∈ (expireScan now1 lastCheck db).2 :=
    (expireScan_mem_qual now1 lastCheck db n hn h1).2
  have hdb1 : (ExpireExpiredNodes now1 db lastCheck).2.1 =
      (expireScan now1 lastCheck db).2 := expireExpiredNodes_db now1 lastCheck db
  have hq2 : newlyExpired now2 lastCheck { n with expiry := some now1 } = true := by
    unfold newlyExpired nodeIsExpired
    simp [h12, hlc]
  have hmem2 := expireScan_mem_qual now2 lastCheck
    ((ExpireExpiredNodes now1 db lastCheck).2.1) { n with expiry := some now1 }
    (by rw [hdb1]; exact hmem1) hq2
  refine ⟨hmem2.1, ?_⟩
  have hne : (expireScan now2 lastCheck
      (ExpireExpiredNodes now1 db lastCheck).2.1).1 ≠ [] :=
    List.ne_nil_of_mem hmem2.1
  exact (expireExpiredNodes_update_pos now2 lastCheck _ hne).2

/-- Witness for C5's amended theorem at a concrete input. -/
theorem expiry_sweep_rereports_amended_witness :
    (expiredNode.id, some (10 : Int)) ∈
      (expireScan 20 0 (ExpireExpiredNodes 10 [expiredNode] 0).2.1).1 ∧
    (ExpireExpiredNodes 20 (ExpireExpiredNodes 10 [expiredNode] 0).2.1 0).2.2.2 =
      true :=
  expiry_sweep_rereports_amended [expiredNode] 0 10 20 expiredNode
    (by decide) (by decide) (by decide) (by decide)
